import Mathlib

/-!
Verification of the asynchronous PDF ingestion-and-conversion pipeline
implemented in `src/app.py` (a Tornado web application).

The development shallowly embeds the core of the program:

* `DB` (sqlite-backed job record store): the table `file`, the methods
  `insert_file`, `update_file`, `list_files`;
* `_generate_file_previews` (the conversion worker run on the thread pool);
* `FilesHandler.post` (the upload handler / ingestion coordinator),
  modelled as a fold over the multipart upload entries that threads the
  store and records the externally visible actions as an event trace.

Machine integers do not occur (sqlite integers are unbounded; Python ints
are unbounded), so counters and identifiers are `Nat`.  Timestamps are
abstracted as `Nat`.  File bodies and rendered page images are abstracted
as `Nat` tokens; the filesystem is a partial map from path strings to such
tokens.
-/

/-- One row of the sqlite table `file` (see `DB.create_file_table`):
`id INTEGER PRIMARY KEY AUTOINCREMENT`, `file TEXT`,
`file_preview_counter INTEGER DEFAULT 0`,
`file_preview_generated BOOLEAN DEFAULT FALSE`, `user_id`, `user_name`,
`created_time`.  The Facebook graph principal id arrives as a string and
sqlite stores it as given, so `user_id` is a `String` here. -/
structure FileRecord where
  id : Nat
  file : String
  file_preview_counter : Nat
  file_preview_generated : Bool
  user_id : String
  user_name : String
  created_time : Nat
deriving Repr, DecidableEq

/-- The state of the `file` table: the rows in insertion (rowid) order,
plus the next value of the `AUTOINCREMENT` id counter. -/
structure Store where
  records : List FileRecord
  nextId : Nat
deriving Repr, DecidableEq

/-- The table right after `DB.create_file_table` on a fresh database:
no rows, and sqlite `AUTOINCREMENT` starts assigning ids at 1. -/
def emptyStore : Store := { records := [], nextId := 1 }

/-- Errors of the persistence layer.  The sqlite driver can raise only if
the database itself is unreachable or a constraint is violated; we give the
error type a single abstract constructor. -/
inductive StorageError
  | unreachable
deriving Repr, DecidableEq

/-- Embeds `DB.insert_file` as called by `FilesHandler.post`: an
`INSERT INTO file (file, user_id, user_name, created_time) VALUES (...)`.
The columns not supplied take their schema defaults
(`file_preview_counter = 0`, `file_preview_generated = FALSE`), the id is
assigned by `AUTOINCREMENT`, and the returned cursor's `lastrowid` is that
newly assigned id.  Result: the new table state and `lastrowid`. -/
def insert_file (s : Store) (file : String) (user_id user_name : String)
    (created_time : Nat) : Store × Nat :=
  let r : FileRecord :=
    { id := s.nextId, file := file, file_preview_counter := 0,
      file_preview_generated := false, user_id := user_id,
      user_name := user_name, created_time := created_time }
  ({ records := s.records ++ [r], nextId := s.nextId + 1 }, s.nextId)

/-- The effect of `DB.update_file`'s SQL statement
`UPDATE file SET file_preview_counter = :c, file_preview_generated = :g
WHERE id = :file_id` on the table, together with the number of rows the
`WHERE` clause matched (the cursor's `rowcount`).  A zero-match update is
a successful no-op in sqlite, not an error. -/
def update_file_run (s : Store) (file_id file_preview_counter : Nat)
    (file_preview_generated : Bool) : Store × Nat :=
  ({ s with
      records := s.records.map fun r =>
        if r.id = file_id then
          { r with file_preview_counter := file_preview_counter,
                   file_preview_generated := file_preview_generated }
        else r },
   s.records.countP fun r => r.id == file_id)

/-- Embeds `DB.update_file`: `self.conn.execute(q, kwargs)` either raises a
sqlite error (database unreachable) or returns the cursor.  With the
connection established, the `UPDATE` always succeeds — in particular it
raises nothing when no row has the given id; it merely matches zero rows. -/
def update_file (s : Store) (file_id file_preview_counter : Nat)
    (file_preview_generated : Bool) : Except StorageError (Store × Nat) :=
  .ok (update_file_run s file_id file_preview_counter file_preview_generated)

/-- Look up the row with the given id (sqlite: ids are unique, so the first
match is the row). -/
def findJob (s : Store) (file_id : Nat) : Option FileRecord :=
  s.records.find? fun r => r.id == file_id

section Listing

/-- Embeds `DB.list_files`: `SELECT * FROM file ORDER BY created_time ASC;`.
SQL fixes only that the output enumerates exactly the rows of the table and
is sorted by `created_time` ascending; the relative order of rows with equal
`created_time` is not specified by the query (there is no secondary sort
key), so the result is modelled as a relation between the table and the
admissible output sequences. -/
def list_files (s : Store) (out : List FileRecord) : Prop :=
  out.Perm s.records ∧
    out.Sorted fun a b => a.created_time ≤ b.created_time

instance (s : Store) (out : List FileRecord) : Decidable (list_files s out) := by
  unfold list_files List.Sorted
  infer_instance

end Listing

section ConversionWorker

/-- The filesystem relevant to the worker: a partial map from path strings
to file contents (abstracted as `Nat` tokens). -/
abbrev FS : Type := String → Option Nat

/-- Writing a file: `preview.save(filename=...)` replaces any existing file
at that path (an overwrite, never a duplicate). -/
def fsWrite (fs : FS) (p : String) (v : Nat) : FS :=
  fun q => if q = p then some v else fs q

/-- The output path of page `i`'s preview image:
`'%s.%s.png' % (file_path, i)` in `_generate_file_previews`. -/
def previewPath (file_path : String) (i : Nat) : String :=
  file_path ++ "." ++ toString i ++ ".png"

/-- Rasterising one page at the fixed resolution (wand `Image` with
`format = 'png'`): a deterministic function of the page's content. -/
def renderPage (page : Nat) : Nat := page

/-- Errors of the conversion worker: wand raises when the source document
cannot be opened or decoded (`Image(filename=file_path, resolution=100)`
on a corrupt or unsupported file). -/
inductive ConversionError
  | cannotOpen
deriving Repr, DecidableEq

/-- The page loop of `_generate_file_previews`:
`for i, page in enumerate(pages.sequence): ... preview.save(...);
file_preview_counter += 1`.  `counter` is the running
`file_preview_counter` and `i` the running page index. -/
def convertGo (file_path : String) (fs : FS) (counter i : Nat) :
    List Nat → FS × Nat
  | [] => (fs, counter)
  | page :: rest =>
      convertGo file_path
        (fsWrite fs (previewPath file_path i) (renderPage page))
        (counter + 1) (i + 1) rest

/-- The conversion worker proper (spec §4.2 `convert`): render every page
of the decoded document to its deterministic preview path, returning the
new filesystem and the final page counter. -/
def convert (fs : FS) (file_path : String) (pages : List Nat) : FS × Nat :=
  convertGo file_path fs 0 0 pages

/-- The sequence of (path, content) writes `convert` performs, in order. -/
def convertWrites (file_path : String) (i : Nat) : List Nat → List (String × Nat)
  | [] => []
  | page :: rest =>
      (previewPath file_path i, renderPage page) :: convertWrites file_path (i + 1) rest

/-- Replaying a write sequence against a filesystem. -/
def applyWrites (fs : FS) (ws : List (String × Nat)) : FS :=
  ws.foldl (fun a w => fsWrite a w.1 w.2) fs

/-- The last value a write sequence stores at a path, if any. -/
def lastVal : List (String × Nat) → String → Option Nat
  | [], _ => none
  | w :: rest, q => (lastVal rest q).or (if w.1 = q then some w.2 else none)

/-- Embeds `_generate_file_previews(file_id, file_path)`: open the document
(`ConversionError` if it cannot be decoded — nothing is written and the
store is untouched), otherwise render every page, then apply the completion
update `db.update_file(file_id, counter, True)` followed by
`db.conn.commit()`.  `docs` is the decoder: the document at each path, or
`none` when the file there cannot be opened or decoded. -/
def generate_file_previews (docs : String → Option (List Nat)) (s : Store)
    (fs : FS) (file_id : Nat) (file_path : String) :
    Except ConversionError (Store × FS × Nat) :=
  match docs file_path with
  | none => .error ConversionError.cannotOpen
  | some pages =>
      let res := convert fs file_path pages
      let s' := (update_file_run s file_id res.2 true).1
      .ok (s', res.1, res.2)

/-- Outcome of one background conversion task as seen at the event loop:
either the task completed (new store, filesystem and final counter), or
its exception was caught and logged by the `IOLoop` callback machinery,
leaving store and filesystem untouched and the process alive. -/
inductive TaskOutcome
  | completed (s : Store) (fs : FS) (counter : Nat)
  | loggedFailure (e : ConversionError) (s : Store) (fs : FS)

/-- Embeds the dispatch path
`spawn_callback(generate_file_previews, ...)` → `executor.submit(...)`:
an exception raised by the worker propagates out of the coroutine into the
event loop, which logs it and continues; it never crashes the pool or the
process.  The function is total: every task has an outcome. -/
def runConversionTask (docs : String → Option (List Nat)) (s : Store)
    (fs : FS) (file_id : Nat) (file_path : String) : TaskOutcome :=
  match generate_file_previews docs s fs file_id file_path with
  | .ok (s', fs', counter) => .completed s' fs' counter
  | .error e => .loggedFailure e s fs

end ConversionWorker

section UploadHandler

/-- One entry of the multipart payload, as found in
`self.request.files`: its `filename`, `content_type` and `body`
(abstracted as a `Nat` token). -/
structure UploadEntry where
  filename : String
  content_type : String
  body : Nat
deriving Repr, DecidableEq

/-- Python's `str.endswith`: a character-level suffix test (`s` ends with
`post`). -/
def endswith (s post : String) : Bool :=
  List.isSuffixOf post.data s.data

/-- The validation of `FilesHandler.post` (lines 121–124): the entry is
kept iff `_file['content_type'] == 'application/pdf'` and
`_file['filename'].endswith('pdf')` — note the code checks the suffix
`pdf`, not `.pdf`. -/
def acceptsFile (e : UploadEntry) : Bool :=
  e.content_type == "application/pdf" && endswith e.filename "pdf"

/-- The externally visible actions of `FilesHandler.post`, in program
order. -/
inductive Event
  | mkdirIfAbsent (dir : String)
  | writeUserFile (path : String) (body : Nat)
  | insertJob (id : Nat)
  | commitTx
  | submitTask (id : Nat) (path : String)
deriving Repr, DecidableEq

/-- The request-scoped state threaded through the upload loop: the job
store (the handler's `db`), the trace of actions so far, the running
`ok_file_counter`, and how many fresh `uuid4` names have been consumed. -/
structure PostState where
  store : Store
  events : List Event
  counter : Nat
  nonce : Nat
deriving Repr

/-- The body of the upload loop of `FilesHandler.post` for one entry:
skip it unless it passes validation; otherwise ensure the per-owner
subdirectory exists, write the body to a fresh `uuid4`-named path, insert
the job row, commit, and spawn the conversion task for
`(res.lastrowid, file_path)`.  `uuids k` is the `k`-th fresh name the
request's `uuid.uuid4()` calls produce, and `clock k` the `k`-th value of
`datetime.datetime.now()`. -/
def processEntry (uploads_dir : String) (uuids : Nat → String)
    (clock : Nat → Nat) (user_id user_name : String)
    (st : PostState) (e : UploadEntry) : PostState :=
  if acceptsFile e then
    let user_dir := uploads_dir ++ "/" ++ user_id
    let file_path := user_dir ++ "/" ++ uuids st.nonce ++ ".pdf"
    let ins := insert_file st.store file_path user_id user_name (clock st.nonce)
    { store := ins.1,
      events := st.events ++
        [Event.mkdirIfAbsent user_dir,
         Event.writeUserFile file_path e.body,
         Event.insertJob ins.2,
         Event.commitTx,
         Event.submitTask ins.2 file_path],
      counter := st.counter + 1,
      nonce := st.nonce + 1 }
  else st

/-- Embeds `FilesHandler.post` (run only for an authenticated principal —
`@tornado.web.authenticated` has already admitted the request): fold the
upload loop over the flattened `self.request.files` entries, starting from
the request's store `s₀` with `ok_file_counter = 0`.  The response body is
`{'ok_file_counter': (result).counter}`. -/
def filesHandlerPost (uploads_dir : String) (uuids : Nat → String)
    (clock : Nat → Nat) (user_id user_name : String) (s₀ : Store)
    (entries : List UploadEntry) : PostState :=
  entries.foldl (processEntry uploads_dir uuids clock user_id user_name)
    { store := s₀, events := [], counter := 0, nonce := 0 }

/-- Transaction bookkeeping for a trace: the ids whose inserts have been
committed, and the ids inserted but not yet committed. -/
def txStep (st : List Nat × List Nat) (e : Event) : List Nat × List Nat :=
  match e with
  | Event.insertJob id => (st.1, st.2 ++ [id])
  | Event.commitTx => (st.1 ++ st.2, [])
  | _ => st

/-- The job ids whose inserting transaction has been committed by the end
of the trace: exactly the jobs that exist durably in the store. -/
def committedIds (evts : List Event) : List Nat :=
  (evts.foldl txStep ([], [])).1

/-- Safety of a handler trace: every task submission is preceded by the
insert of the same job id, already committed at the submission point. -/
def safeSubmits (evts : List Event) : Prop :=
  ∀ (p₁ : List Event) (id : Nat) (path : String) (s₁ : List Event),
    evts = p₁ ++ Event.submitTask id path :: s₁ →
    Event.insertJob id ∈ p₁ ∧ id ∈ committedIds p₁

end UploadHandler

section StoreOps

/-- The mutating store operations this program performs.  There are
exactly two call sites that write the `file` table:
`FilesHandler.post` inserts a row (schema defaults for the preview
columns), and `_generate_file_previews` applies the completion update
`update_file(file_id, pageCount, True)` where `pageCount` is the counter
produced by the page loop. -/
inductive Op
  | insertOp (file : String) (user_id user_name : String) (created_time : Nat)
  | completeOp (file_id : Nat) (pageCount : Nat)
deriving Repr, DecidableEq

/-- Effect of one program operation on the table. -/
def applyOp (s : Store) : Op → Store
  | Op.insertOp f uid un t => (insert_file s f uid un t).1
  | Op.completeOp fid n => (update_file_run s fid n true).1

/-- Replay a sequence of operations from a given table state. -/
def runFrom (s : Store) (ops : List Op) : Store :=
  ops.foldl applyOp s

/-- Replay a sequence of operations from the freshly created table. -/
def runOps (ops : List Op) : Store :=
  runFrom emptyStore ops

/-- The preview columns of job `fid` after a trace: `none` when no row
with that id exists yet. -/
def jobState (ops : List Op) (fid : Nat) : Option (Nat × Bool) :=
  (findJob (runOps ops) fid).map fun r =>
    (r.file_preview_counter, r.file_preview_generated)

/-- `file_preview_generated` of job `fid` after a trace (`false` while the
row does not exist). -/
def genAt (ops : List Op) (fid : Nat) : Bool :=
  ((jobState ops fid).map Prod.snd).getD false

/-- `file_preview_counter` of job `fid` after a trace (`0` while the row
does not exist). -/
def countAt (ops : List Op) (fid : Nat) : Nat :=
  ((jobState ops fid).map Prod.fst).getD 0

/-- The job id a completion operation targets, if any. -/
def completedId : Op → Option Nat
  | Op.completeOp fid _ => some fid
  | _ => none

/-- How many completion updates for job `fid` a trace contains. -/
def completions (fid : Nat) (ops : List Op) : Nat :=
  ops.countP fun op => completedId op == some fid

/-- The trace discipline the program guarantees (spec §3: "Exactly one
conversion task is ever enqueued per Job"): each job id is the target of
at most one completion update. -/
def atMostOneCompletion (ops : List Op) : Prop :=
  (ops.filterMap completedId).Nodup

instance (ops : List Op) : Decidable (atMostOneCompletion ops) := by
  unfold atMostOneCompletion
  infer_instance

end StoreOps

/-! ### Helper lemmas about the conversion worker -/

/-- The page loop's counter ends at its start value plus the number of
pages. -/
theorem convertGo_counter (file_path : String) :
    ∀ (pages : List Nat) (fs : FS) (counter i : Nat),
      (convertGo file_path fs counter i pages).2 = counter + pages.length := by
  intro pages
  induction pages with
  | nil => intro fs counter i; simp [convertGo]
  | cons page rest ih =>
      intro fs counter i
      simp [convertGo, ih]
      omega

/-- `convert` returns the document's page count. -/
theorem convert_counter (fs : FS) (file_path : String) (pages : List Nat) :
    (convert fs file_path pages).2 = pages.length := by
  simp [convert, convertGo_counter]

/-- The page loop is exactly the replay of its write sequence. -/
theorem convertGo_eq_applyWrites (file_path : String) :
    ∀ (pages : List Nat) (fs : FS) (counter i : Nat),
      (convertGo file_path fs counter i pages).1 =
        applyWrites fs (convertWrites file_path i pages) := by
  intro pages
  induction pages with
  | nil => intro fs counter i; simp [convertGo, convertWrites, applyWrites]
  | cons page rest ih =>
      intro fs counter i
      simp [convertGo, convertWrites, applyWrites, List.foldl_cons, ih]

/-- Reading after a replayed write sequence: the sequence's last value at
that path if it wrote there, the old content otherwise. -/
theorem applyWrites_read :
    ∀ (ws : List (String × Nat)) (fs : FS) (q : String),
      applyWrites fs ws q = (lastVal ws q).or (fs q) := by
  intro ws
  induction ws with
  | nil => intro fs q; simp [applyWrites, lastVal]
  | cons w rest ih =>
      intro fs q
      have h1 : applyWrites fs (w :: rest) q =
          applyWrites (fsWrite fs w.1 w.2) rest q := rfl
      rw [h1, ih, lastVal, Option.or_assoc]
      congr 1
      by_cases hq : q = w.1
      · simp [fsWrite, hq]
      · have : ¬w.1 = q := fun h => hq h.symm
        simp [fsWrite, hq, this]

/-- Replaying the same write sequence a second time changes nothing: every
write lands on the same path with the same content and overwrites. -/
theorem applyWrites_idem (ws : List (String × Nat)) (fs : FS) :
    applyWrites (applyWrites fs ws) ws = applyWrites fs ws := by
  funext q
  rw [applyWrites_read, applyWrites_read]
  cases h : lastVal ws q <;> simp [h]

/-- The paths the conversion loop writes, in order: the deterministic
preview path of each page index. -/
theorem convertWrites_paths (file_path : String) :
    ∀ (pages : List Nat) (i : Nat),
      (convertWrites file_path i pages).map Prod.fst =
        (List.range' i pages.length).map (previewPath file_path) := by
  intro pages
  induction pages with
  | nil => intro i; simp [convertWrites]
  | cons page rest ih =>
      intro i
      simp [convertWrites, List.range'_succ, ih i.succ]

/-! ### Helper lemmas about the record store -/

/-- The completion update leaves row ids unchanged and rewrites the row
found for an id pointwise. -/
theorem findJob_update (s : Store) (fid' c : Nat) (g : Bool) (fid : Nat) :
    findJob (update_file_run s fid' c g).1 fid =
      (findJob s fid).map fun r =>
        if r.id = fid' then
          { r with file_preview_counter := c, file_preview_generated := g }
        else r := by
  unfold findJob update_file_run
  rw [List.find?_map]
  have hp : ((fun r : FileRecord => r.id == fid) ∘ fun r : FileRecord =>
      if r.id = fid' then
        { r with file_preview_counter := c, file_preview_generated := g }
      else r) = fun r : FileRecord => r.id == fid := by
    funext r
    by_cases h : r.id = fid' <;> simp [h, Function.comp]
  rw [hp]

/-- Updating a different id does not move or change the row found for an
id. -/
theorem findJob_update_other (s : Store) (fid' c : Nat) (g : Bool)
    (fid : Nat) (hne : fid' ≠ fid) :
    findJob (update_file_run s fid' c g).1 fid = findJob s fid := by
  rw [findJob_update]
  cases h : findJob s fid with
  | none => rfl
  | some r =>
      have h0 : s.records.find? (fun x => x.id == fid) = some r := h
      have hid : r.id = fid := by
        have hr := List.find?_some h0
        simpa using hr
      have hne' : r.id ≠ fid' := by omega
      simp [hne']

/-- Updating the id of a found row rewrites exactly its two preview
columns, in one statement. -/
theorem findJob_update_self (s : Store) (fid c : Nat) (g : Bool)
    (r : FileRecord) (h : findJob s fid = some r) :
    findJob (update_file_run s fid c g).1 fid =
      some { r with file_preview_counter := c, file_preview_generated := g } := by
  rw [findJob_update, h]
  have h0 : s.records.find? (fun x => x.id == fid) = some r := h
  have hid : r.id = fid := by
    have hr := List.find?_some h0
    simpa using hr
  have hmap : Option.map (fun x : FileRecord =>
      if x.id = fid then
        { x with file_preview_counter := c, file_preview_generated := g }
      else x) (some r) = some (if r.id = fid then
        { r with file_preview_counter := c, file_preview_generated := g }
      else r) := rfl
  rw [hmap, if_pos hid]

/-- Inserting a row never moves or changes an already-found row (the new
row is appended after all existing ones). -/
theorem findJob_insert_found (s : Store) (f uid un : String) (t : Nat)
    (fid : Nat) (r : FileRecord) (h : findJob s fid = some r) :
    findJob (insert_file s f uid un t).1 fid = some r := by
  have h0 : s.records.find? (fun x => x.id == fid) = some r := h
  simp only [findJob, insert_file]
  rw [List.find?_append, h0]
  rfl

/-- A row first found after an insert is the inserted row, with its schema
defaults `file_preview_counter = 0`, `file_preview_generated = FALSE`. -/
theorem findJob_insert_new (s : Store) (f uid un : String) (t : Nat)
    (fid : Nat) (h : findJob s fid = none) (r' : FileRecord)
    (h' : findJob (insert_file s f uid un t).1 fid = some r') :
    r'.file_preview_counter = 0 ∧ r'.file_preview_generated = false := by
  have h0 : s.records.find? (fun x => x.id == fid) = none := h
  simp only [findJob, insert_file] at h'
  rw [List.find?_append, h0] at h'
  simp only [Option.none_or] at h'
  by_cases hb : (s.nextId == fid) = true
  · simp [List.find?, hb] at h'
    rw [← h']
    exact ⟨rfl, rfl⟩
  · simp [List.find?, hb] at h'

/-! ### Helper lemmas about operation traces -/

/-- Replaying an extended trace replays the extension from the midpoint. -/
theorem runFrom_append (s : Store) (ops₁ ops₂ : List Op) :
    runFrom s (ops₁ ++ ops₂) = runFrom (runFrom s ops₁) ops₂ := by
  simp [runFrom, List.foldl_append]

/-- Appending one operation to a trace applies it to the final state. -/
theorem runOps_concat (ops : List Op) (op : Op) :
    runOps (ops ++ [op]) = applyOp (runOps ops) op := by
  simp [runOps, runFrom_append, runFrom]

/-- The number of completion updates for an id, through `filterMap`. -/
theorem completions_eq_count (fid : Nat) (ops : List Op) :
    completions fid ops = (ops.filterMap completedId).count fid := by
  rw [completions, List.count_filterMap]

/-- Under the program's trace discipline, an id is completed at most
once over the whole trace. -/
theorem completions_le_one (fid : Nat) (ops : List Op)
    (h : atMostOneCompletion ops) : completions fid ops ≤ 1 := by
  rw [completions_eq_count]
  exact List.nodup_iff_count_le_one.1 h fid

/-- While a trace contains no completion for an id, the row for that id
(if any) keeps `file_preview_generated = false`. -/
theorem notGenerated_run (fid : Nat) :
    ∀ (ops : List Op) (s : Store), completions fid ops = 0 →
      (∀ r, findJob s fid = some r → r.file_preview_generated = false) →
      ∀ r, findJob (runFrom s ops) fid = some r →
        r.file_preview_generated = false := by
  intro ops
  induction ops with
  | nil => intro s _ hs r hr; exact hs r hr
  | cons op rest ih =>
      intro s hc hs r hr
      rw [completions, List.countP_eq_zero] at hc
      have hc1 : completions fid rest = 0 := by
        rw [completions, List.countP_eq_zero]
        intro a ha
        exact hc a (List.mem_cons_of_mem _ ha)
      have hc2 : completedId op ≠ some fid := by
        have := hc op (List.mem_cons_self _ _)
        simpa using this
      refine ih (applyOp s op) hc1 ?_ r hr
      intro r' hr'
      cases op with
      | insertOp f uid un t =>
          cases hfind : findJob s fid with
          | some r0 =>
              rw [applyOp, findJob_insert_found s f uid un t fid r0 hfind] at hr'
              have he : r0 = r' := by injection hr'
              rw [← he]
              exact hs r0 hfind
          | none =>
              exact (findJob_insert_new s f uid un t fid hfind r' hr').2
      | completeOp fid' n =>
          have hne : fid' ≠ fid := by
            intro he
            exact hc2 (by rw [completedId, he])
          rw [applyOp, findJob_update_other s fid' n true fid hne] at hr'
          exact hs r' hr'

/-- While a trace contains no completion for an id, the row found for that
id is untouched: inserts only append, and completions for other ids do not
modify it. -/
theorem completed_stable (fid : Nat) :
    ∀ (ops : List Op) (s : Store) (r : FileRecord),
      completions fid ops = 0 → findJob s fid = some r →
      findJob (runFrom s ops) fid = some r := by
  intro ops
  induction ops with
  | nil => intro s r _ hr; exact hr
  | cons op rest ih =>
      intro s r hc hr
      rw [completions, List.countP_eq_zero] at hc
      have hc1 : completions fid rest = 0 := by
        rw [completions, List.countP_eq_zero]
        intro a ha
        exact hc a (List.mem_cons_of_mem _ ha)
      have hc2 : completedId op ≠ some fid := by
        have := hc op (List.mem_cons_self _ _)
        simpa using this
      refine ih (applyOp s op) r hc1 ?_
      cases op with
      | insertOp f uid un t =>
          exact findJob_insert_found s f uid un t fid r hr
      | completeOp fid' n =>
          have hne : fid' ≠ fid := by
            intro he
            exact hc2 (by rw [completedId, he])
          rw [applyOp, findJob_update_other s fid' n true fid hne]
          exact hr

/-- Along any trace, a row with `file_preview_generated = false` has
`file_preview_counter = 0`: rows are created that way, and the only update
statement sets the two columns together with `generated = TRUE`. -/
theorem pendingZero_run (fid : Nat) :
    ∀ (ops : List Op) (s : Store),
      (∀ r, findJob s fid = some r → r.file_preview_generated = false →
        r.file_preview_counter = 0) →
      ∀ r, findJob (runFrom s ops) fid = some r →
        r.file_preview_generated = false → r.file_preview_counter = 0 := by
  intro ops
  induction ops with
  | nil => intro s hs r hr; exact hs r hr
  | cons op rest ih =>
      intro s hs r hr
      refine ih (applyOp s op) ?_ r hr
      intro r' hr' hg
      cases op with
      | insertOp f uid un t =>
          cases hfind : findJob s fid with
          | some r0 =>
              rw [applyOp, findJob_insert_found s f uid un t fid r0 hfind] at hr'
              have he : r0 = r' := by injection hr'
              rw [← he] at hg ⊢
              exact hs r0 hfind hg
          | none =>
              exact (findJob_insert_new s f uid un t fid hfind r' hr').1
      | completeOp fid' n =>
          by_cases hne : fid' = fid
          · subst hne
            cases hfind : findJob s fid' with
            | some r0 =>
                rw [applyOp, findJob_update_self s fid' n true r0 hfind] at hr'
                injection hr' with he2
                rw [← he2] at hg
                simp at hg
            | none =>
                rw [applyOp, findJob_update, hfind] at hr'
                cases hr'
          · rw [applyOp, findJob_update_other s fid' n true fid hne] at hr'
            exact hs r' hr' hg

/-- In the fresh table no row exists. -/
theorem findJob_empty (fid : Nat) : findJob emptyStore fid = none := rfl

/-- Applying the same completion update twice yields the same table as
applying it once: the second update rewrites the same rows with the same
values. -/
theorem update_file_run_idem (s : Store) (fid c : Nat) (g : Bool) :
    (update_file_run (update_file_run s fid c g).1 fid c g).1 =
      (update_file_run s fid c g).1 := by
  unfold update_file_run
  simp only [List.map_map]
  have hf : ((fun r : FileRecord =>
        if r.id = fid then
          { r with file_preview_counter := c, file_preview_generated := g }
        else r) ∘ fun r : FileRecord =>
        if r.id = fid then
          { r with file_preview_counter := c, file_preview_generated := g }
        else r) = fun r : FileRecord =>
        if r.id = fid then
          { r with file_preview_counter := c, file_preview_generated := g }
        else r := by
    funext r
    by_cases h : r.id = fid <;> simp [Function.comp, h]
  rw [hf]

/-! ### Helper lemmas about the upload handler -/

/-- Each rejected entry leaves the request state untouched; each accepted
entry adds one to the counter, one row to the store and five events to the
trace. -/
theorem filesHandlerPost_counts (ud : String) (uuids : Nat → String)
    (clock : Nat → Nat) (uid un : String) :
    ∀ (entries : List UploadEntry) (st : PostState),
      ((entries.foldl (processEntry ud uuids clock uid un) st).counter =
          st.counter + entries.countP acceptsFile) ∧
      ((entries.foldl (processEntry ud uuids clock uid un) st).store.records.length =
          st.store.records.length + entries.countP acceptsFile) ∧
      ((entries.foldl (processEntry ud uuids clock uid un) st).events.length =
          st.events.length + 5 * entries.countP acceptsFile) := by
  intro entries
  induction entries with
  | nil => intro st; simp
  | cons e rest ih =>
      intro st
      rw [List.foldl_cons, List.countP_cons]
      by_cases ha : acceptsFile e
      · obtain ⟨h1, h2, h3⟩ := ih (processEntry ud uuids clock uid un st e)
        rw [h1, h2, h3]
        simp [processEntry, ha, insert_file]
        omega
      · obtain ⟨h1, h2, h3⟩ := ih st
        have hst : processEntry ud uuids clock uid un st e = st := by
          simp [processEntry, ha]
        rw [hst, h1, h2, h3]
        simp [Bool.eq_false_iff.2 ha]

/-- The id inserted and committed by one accepted entry is committed at the
end of its block of trace events. -/
theorem committedIds_block (evts : List Event) (d fp : String) (b rid : Nat) :
    rid ∈ committedIds (evts ++ [Event.mkdirIfAbsent d,
      Event.writeUserFile fp b, Event.insertJob rid, Event.commitTx]) := by
  unfold committedIds
  rw [List.foldl_append]
  simp [txStep]

/-- The empty trace submits nothing, so it is safe. -/
theorem safeSubmits_nil : safeSubmits [] := by
  intro p₁ id path s₁ h
  exact absurd h.symm (List.append_ne_nil_of_right_ne_nil _ (by simp))

/-- Appending one accepted entry's block of events — make the directory,
write the upload, insert the job row, commit, submit the task — preserves
trace safety: the one submission the block adds is for the id the block
itself inserted and committed just before. -/
theorem safeSubmits_append_block (evts : List Event) (d fp : String)
    (b rid : Nat) (h : safeSubmits evts) :
    safeSubmits (evts ++ [Event.mkdirIfAbsent d, Event.writeUserFile fp b,
      Event.insertJob rid, Event.commitTx, Event.submitTask rid fp]) := by
  intro p₁ id path s₁ heq
  rcases List.append_eq_append_iff.1 heq with ⟨a', ha1, ha2⟩ | ⟨c', hc1, hc2⟩
  · rcases a' with _ | ⟨x1, _ | ⟨x2, _ | ⟨x3, _ | ⟨x4, _ | ⟨x5, a''⟩⟩⟩⟩⟩ <;>
      simp only [List.cons_append, List.nil_append, List.cons.injEq] at ha2
    · exact absurd ha2.1 (by simp)
    · exact absurd ha2.2.1 (by simp)
    · exact absurd ha2.2.2.1 (by simp)
    · exact absurd ha2.2.2.2.1 (by simp)
    · obtain ⟨he1, he2, he3, he4, he5, he6⟩ := ha2
      injection he5 with hid hpath
      subst ha1
      constructor
      · rw [← he1, ← he2, ← he3, ← he4, ← hid]
        simp
      · rw [← he1, ← he2, ← he3, ← he4, ← hid]
        exact committedIds_block evts d fp b rid
    · exact absurd ha2.2.2.2.2.2.symm
        (List.append_ne_nil_of_right_ne_nil _ (by simp))
  · rcases c' with _ | ⟨y, c''⟩
    · simp only [List.nil_append] at hc2
      exact absurd hc2 (by simp)
    · simp only [List.cons_append, List.cons.injEq] at hc2
      obtain ⟨hy, hs1⟩ := hc2
      exact h p₁ id path c'' (by rw [hc1, ← hy])

/-- The upload loop of `FilesHandler.post` preserves trace safety: a
rejected entry adds nothing, and an accepted entry appends exactly one
block that inserts a row, commits it, and only then submits the task for
that same id. -/
theorem safeSubmits_foldl (ud : String) (uuids : Nat → String)
    (clock : Nat → Nat) (uid un : String) :
    ∀ (entries : List UploadEntry) (st : PostState),
      safeSubmits st.events →
      safeSubmits
        ((entries.foldl (processEntry ud uuids clock uid un) st).events) := by
  intro entries
  induction entries with
  | nil => intro st h; exact h
  | cons e rest ih =>
      intro st h
      rw [List.foldl_cons]
      refine ih _ ?_
      by_cases ha : acceptsFile e
      · simp only [processEntry, ha, if_true]
        exact safeSubmits_append_block st.events _ _ _ _ h
      · simp only [processEntry, ha, if_false]
        exact h

/-! ### Claim theorems -/

/-- C5 counterexample: calling the completion update with a job id for
which no row exists does not fail — `UPDATE` with a `WHERE` clause that
matches nothing is a successful no-op with `rowcount = 0`, and
`DB.update_file` raises nothing.  On the empty table (which has no row
with id 1) the call returns success, not a `StorageError`. -/
theorem update_file_missing_id_succeeds :
    emptyStore.records = [] ∧
    update_file emptyStore 1 3 true = .ok (emptyStore, 0) ∧
    update_file emptyStore 1 3 true ≠ .error StorageError.unreachable :=
  ⟨rfl, rfl, fun h => Except.noConfusion h⟩

/-- C5 amended: for every call to the completion update with a job id for
which no row exists, the operation succeeds as a no-op — it matches zero
rows, changes nothing, raises no error, and the conversion result is
silently lost. -/
theorem update_file_missing_id_noop (s : Store) (fid c : Nat) (g : Bool)
    (h : ∀ r ∈ s.records, r.id ≠ fid) :
    update_file s fid c g = .ok (s, 0) := by
  have h1 : (s.records.map fun r =>
      if r.id = fid then
        { r with file_preview_counter := c, file_preview_generated := g }
      else r) = s.records := by
    conv_rhs => rw [← List.map_id s.records]
    exact List.map_congr_left fun r hr => by simp [h r hr]
  have h2 : (s.records.countP fun r => r.id == fid) = 0 := by
    rw [List.countP_eq_zero]
    intro r hr
    simpa using h r hr
  unfold update_file update_file_run
  rw [h1, h2]

/-- C5 amended, at a concrete input: a table whose only row has id 1,
updated at the absent id 5, is returned unchanged with zero rows
matched. -/
theorem update_file_missing_id_noop_witness :
    (∀ r ∈ (Store.mk [⟨1, "a.pdf", 0, false, "1", "u", 0⟩] 2).records,
      r.id ≠ 5) ∧
    update_file (Store.mk [⟨1, "a.pdf", 0, false, "1", "u", 0⟩] 2) 5 3 true =
      .ok (Store.mk [⟨1, "a.pdf", 0, false, "1", "u", 0⟩] 2, 0) :=
  ⟨by decide, update_file_missing_id_noop _ 5 3 true (by decide)⟩

/-- C8: every insert performed for an accepted upload entry appends one
row whose preview columns take the schema defaults
`file_preview_counter = 0` and `file_preview_generated = FALSE`, whose
remaining columns are the caller's values, and whose freshly assigned id
is what the insert returns (`lastrowid`). -/
theorem insert_file_starts_pending (s : Store) (f uid un : String) (t : Nat) :
    ∃ r : FileRecord,
      (insert_file s f uid un t).1.records = s.records ++ [r] ∧
      r.file_preview_counter = 0 ∧
      r.file_preview_generated = false ∧
      r.id = (insert_file s f uid un t).2 ∧
      (insert_file s f uid un t).1.nextId = s.nextId + 1 ∧
      r.file = f ∧ r.user_id = uid ∧ r.user_name = un ∧ r.created_time = t :=
  ⟨_, rfl, rfl, rfl, rfl, rfl, rfl, rfl, rfl, rfl⟩

/-- C9 counterexample: `SELECT * FROM file ORDER BY created_time ASC` has
no secondary sort key, so for two rows with equal `created_time` (ids 1
and 2) the output that lists id 2 before id 1 is an admissible result of
`list_files`, yet it is not ordered by the claimed id-ascending
tie-break. -/
theorem list_files_ties_not_id_ordered :
    list_files
      (Store.mk [⟨1, "a.pdf", 0, false, "1", "u", 5⟩,
        ⟨2, "b.pdf", 0, false, "1", "u", 5⟩] 3)
      [⟨2, "b.pdf", 0, false, "1", "u", 5⟩,
       ⟨1, "a.pdf", 0, false, "1", "u", 5⟩] ∧
    ¬ List.Sorted (fun a b : FileRecord =>
        a.created_time < b.created_time ∨
          (a.created_time = b.created_time ∧ a.id ≤ b.id))
      [⟨2, "b.pdf", 0, false, "1", "u", 5⟩,
       ⟨1, "a.pdf", 0, false, "1", "u", 5⟩] := by
  constructor
  · constructor
    · decide
    · decide
  · decide

/-- C9 amended: `list_files` returns all job rows — every row of the
table, exactly once — sorted by `created_time` ascending; the relative
order of rows with equal timestamps is left unspecified by the query (no
id tie-break is imposed). -/
theorem list_files_time_sorted_permutation (s : Store)
    (out : List FileRecord) (h : list_files s out) :
    (∀ r, r ∈ out ↔ r ∈ s.records) ∧
    out.length = s.records.length ∧
    List.Sorted (fun a b : FileRecord =>
      a.created_time ≤ b.created_time) out :=
  ⟨fun _ => h.1.mem_iff, h.1.length_eq, h.2⟩

/-- C9 amended, at a concrete input: the two-row table listed in
timestamp order. -/
theorem list_files_time_sorted_permutation_witness :
    list_files
      (Store.mk [⟨1, "a.pdf", 0, false, "1", "u", 4⟩,
        ⟨2, "b.pdf", 0, false, "1", "u", 5⟩] 3)
      [⟨1, "a.pdf", 0, false, "1", "u", 4⟩,
       ⟨2, "b.pdf", 0, false, "1", "u", 5⟩] ∧
    ((∀ r, r ∈ [⟨1, "a.pdf", 0, false, "1", "u", 4⟩,
        (⟨2, "b.pdf", 0, false, "1", "u", 5⟩ : FileRecord)] ↔
        r ∈ (Store.mk [⟨1, "a.pdf", 0, false, "1", "u", 4⟩,
          ⟨2, "b.pdf", 0, false, "1", "u", 5⟩] 3).records) ∧
      ([⟨1, "a.pdf", 0, false, "1", "u", 4⟩,
        (⟨2, "b.pdf", 0, false, "1", "u", 5⟩ : FileRecord)]).length =
        (Store.mk [⟨1, "a.pdf", 0, false, "1", "u", 4⟩,
          ⟨2, "b.pdf", 0, false, "1", "u", 5⟩] 3).records.length ∧
      List.Sorted (fun a b : FileRecord => a.created_time ≤ b.created_time)
        [⟨1, "a.pdf", 0, false, "1", "u", 4⟩,
         ⟨2, "b.pdf", 0, false, "1", "u", 5⟩]) :=
  ⟨by constructor <;> decide,
   list_files_time_sorted_permutation _ _ (by constructor <;> decide)⟩

/-- C6: when the source document cannot be opened or decoded, the worker
raises `ConversionError` to its caller before touching the store or the
filesystem — the job row keeps `file_preview_counter = 0`,
`file_preview_generated = false` — and the event loop catches and logs the
failure instead of crashing. -/
theorem conversion_error_leaves_job_pending
    (docs : String → Option (List Nat)) (s : Store) (fs : FS)
    (file_id : Nat) (file_path : String) (h : docs file_path = none) :
    generate_file_previews docs s fs file_id file_path =
      .error ConversionError.cannotOpen ∧
    runConversionTask docs s fs file_id file_path =
      .loggedFailure ConversionError.cannotOpen s fs := by
  constructor <;> simp [generate_file_previews, runConversionTask, h]

/-- C6, at a concrete input: a decoder that rejects every path. -/
theorem conversion_error_leaves_job_pending_witness :
    ((fun _ : String => (none : Option (List Nat))) "x.pdf" = none) ∧
    (generate_file_previews (fun _ => none) emptyStore (fun _ => none)
        1 "x.pdf" = .error ConversionError.cannotOpen ∧
      runConversionTask (fun _ => none) emptyStore (fun _ => none)
        1 "x.pdf" =
        .loggedFailure ConversionError.cannotOpen emptyStore (fun _ => none)) :=
  ⟨rfl, conversion_error_leaves_job_pending _ _ _ 1 "x.pdf" rfl⟩

/-- C2: when the conversion task for an existing job runs to successful
completion (the document decodes into its page list), the worker returns
the true page count and the job row afterwards has
`file_preview_generated = true` and `file_preview_counter` equal to that
page count — the page list may be empty, in which case the row ends at
count 0 with `generated = true` (zero pages is a success, not an
error). -/
theorem conversion_success_sets_final_count
    (docs : String → Option (List Nat)) (s : Store) (fs : FS)
    (file_id : Nat) (file_path : String) (pages : List Nat) (r : FileRecord)
    (hdocs : docs file_path = some pages) (hr : r ∈ s.records)
    (hid : r.id = file_id) :
    ∃ s' fs',
      generate_file_previews docs s fs file_id file_path =
        .ok (s', fs', pages.length) ∧
      ∃ r' ∈ s'.records, r'.id = file_id ∧
        r'.file_preview_counter = pages.length ∧
        r'.file_preview_generated = true := by
  refine ⟨(update_file_run s file_id pages.length true).1,
    (convert fs file_path pages).1, ?_, ?_⟩
  · simp [generate_file_previews, hdocs, convert_counter]
  · have hmem := List.mem_map_of_mem (fun x : FileRecord =>
      if x.id = file_id then
        { x with file_preview_counter := pages.length,
                 file_preview_generated := true }
      else x) hr
    have hmem' : (if r.id = file_id then
        ({ r with file_preview_counter := pages.length,
                  file_preview_generated := true } : FileRecord)
      else r) ∈ (update_file_run s file_id pages.length true).1.records := hmem
    rw [if_pos hid] at hmem'
    exact ⟨_, hmem', hid, rfl, rfl⟩

/-- C2, at a concrete input: a zero-page document for job 1 — conversion
succeeds, and the row ends at `file_preview_counter = 0`,
`file_preview_generated = true`. -/
theorem conversion_success_sets_final_count_witness :
    ((fun _ : String => some ([] : List Nat)) "p.pdf" = some []) ∧
    ((⟨1, "p.pdf", 0, false, "1", "u", 0⟩ : FileRecord) ∈
      (Store.mk [⟨1, "p.pdf", 0, false, "1", "u", 0⟩] 2).records) ∧
    ((⟨1, "p.pdf", 0, false, "1", "u", 0⟩ : FileRecord).id = 1) ∧
    ∃ s' fs',
      generate_file_previews (fun _ => some [])
          (Store.mk [⟨1, "p.pdf", 0, false, "1", "u", 0⟩] 2)
          (fun _ => none) 1 "p.pdf" = .ok (s', fs', 0) ∧
      ∃ r' ∈ s'.records, r'.id = 1 ∧
        r'.file_preview_counter = 0 ∧ r'.file_preview_generated = true :=
  ⟨rfl, by decide, rfl,
   conversion_success_sets_final_count _ _ _ 1 "p.pdf" []
     ⟨1, "p.pdf", 0, false, "1", "u", 0⟩ rfl (by decide) rfl⟩

/-- C7: conversion is idempotent.  A successful run writes each page image
to the deterministic path `file_path ++ "." ++ i ++ ".png"`, so the write
paths of a run are a function of the source path and the page indices
alone; a second run over the same source overwrites the same files with
the same contents and applies the same completion update, leaving the
filesystem, the store and the returned page count exactly as after the
first run. -/
theorem conversion_idempotent (docs : String → Option (List Nat))
    (s : Store) (fs : FS) (file_id : Nat) (file_path : String)
    (pages : List Nat) (hdocs : docs file_path = some pages) :
    ∃ s₁ fs₁,
      generate_file_previews docs s fs file_id file_path =
        .ok (s₁, fs₁, pages.length) ∧
      generate_file_previews docs s₁ fs₁ file_id file_path =
        .ok (s₁, fs₁, pages.length) ∧
      (convertWrites file_path 0 pages).map Prod.fst =
        (List.range pages.length).map (previewPath file_path) := by
  refine ⟨(update_file_run s file_id pages.length true).1,
    (convert fs file_path pages).1, ?_, ?_, ?_⟩
  · simp [generate_file_previews, hdocs, convert_counter]
  · have hfs : (convert (convert fs file_path pages).1 file_path pages).1 =
        (convert fs file_path pages).1 := by
      rw [convert, convert, convertGo_eq_applyWrites, convertGo_eq_applyWrites]
      exact applyWrites_idem _ _
    have hst := update_file_run_idem s file_id pages.length true
    simp [generate_file_previews, hdocs, convert_counter, hfs, hst]
  · rw [List.range_eq_range']
    exact convertWrites_paths file_path pages 0

/-- C7, at a concrete input: a two-page document converted twice. -/
theorem conversion_idempotent_witness :
    ((fun _ : String => some [4, 7]) "p.pdf" = some [4, 7]) ∧
    ∃ s₁ fs₁,
      generate_file_previews (fun _ => some [4, 7]) emptyStore
          (fun _ => none) 1 "p.pdf" = .ok (s₁, fs₁, 2) ∧
      generate_file_previews (fun _ => some [4, 7]) s₁ fs₁ 1 "p.pdf" =
        .ok (s₁, fs₁, 2) ∧
      (convertWrites "p.pdf" 0 [4, 7]).map Prod.fst =
        (List.range 2).map (previewPath "p.pdf") :=
  ⟨rfl, conversion_idempotent _ _ _ 1 "p.pdf" [4, 7] rfl⟩

/-- C1 counterexample: the handler checks `filename.endswith('pdf')`, not
`.pdf`.  The entry named `xpdf` with content type `application/pdf` does
not end in `.pdf`, yet the handler accepts it: it is counted and a job row
is created for it. -/
theorem upload_accepts_filename_without_dot_pdf :
    endswith "xpdf" ".pdf" = false ∧
    acceptsFile ⟨"xpdf", "application/pdf", 0⟩ = true ∧
    (filesHandlerPost "d" (fun _ => "n") (fun _ => 0) "1" "u" emptyStore
      [⟨"xpdf", "application/pdf", 0⟩]).counter = 1 ∧
    (filesHandlerPost "d" (fun _ => "n") (fun _ => 0) "1" "u" emptyStore
      [⟨"xpdf", "application/pdf", 0⟩]).store.records.length = 1 := by
  refine ⟨?_, ?_, ?_, ?_⟩ <;> decide

/-- C1 amended: the authenticated upload handler accepts exactly those
entries whose content type equals `application/pdf` and whose filename
ends with the three characters `pdf` (the code does not require the dot,
so e.g. `xpdf` is also accepted); the returned `ok_file_counter` equals
the number of such entries, the store grows by exactly one job row per
such entry, and a rejected entry is silently skipped — it produces no
event at all: no directory creation, no file write, no insert, no task
submission. -/
theorem acceptUpload_accepted_count (ud : String) (uuids : Nat → String)
    (clock : Nat → Nat) (uid un : String) (s₀ : Store)
    (entries : List UploadEntry) :
    (filesHandlerPost ud uuids clock uid un s₀ entries).counter =
        entries.countP acceptsFile ∧
    (filesHandlerPost ud uuids clock uid un s₀ entries).store.records.length =
        s₀.records.length + entries.countP acceptsFile ∧
    (filesHandlerPost ud uuids clock uid un s₀ entries).events.length =
        5 * entries.countP acceptsFile := by
  obtain ⟨h1, h2, h3⟩ := filesHandlerPost_counts ud uuids clock uid un entries
    { store := s₀, events := [], counter := 0, nonce := 0 }
  exact ⟨by simpa using h1, by simpa using h2, by simpa using h3⟩

/-- C3: within one upload request, every task submission in the handler's
action trace is strictly preceded by the insert of that same job id, and
that insert is already committed at the submission point — the job id is
among the committed ids of the trace prefix, i.e. the job durably exists
in the store before its conversion task is handed to the worker pool. -/
theorem task_submitted_only_after_committed_insert (ud : String)
    (uuids : Nat → String) (clock : Nat → Nat) (uid un : String)
    (s₀ : Store) (entries : List UploadEntry) (p₁ : List Event) (jid : Nat)
    (path : String) (s₁ : List Event)
    (h : (filesHandlerPost ud uuids clock uid un s₀ entries).events =
      p₁ ++ Event.submitTask jid path :: s₁) :
    Event.insertJob jid ∈ p₁ ∧ jid ∈ committedIds p₁ :=
  safeSubmits_foldl ud uuids clock uid un entries
    { store := s₀, events := [], counter := 0, nonce := 0 }
    safeSubmits_nil p₁ jid path s₁ h

/-- C3, at a concrete input: one accepted upload; the submit event is the
last of its block, after the insert of id 1 and the commit. -/
theorem task_submitted_only_after_committed_insert_witness :
    ((filesHandlerPost "d" (fun _ => "n") (fun _ => 0) "1" "u" emptyStore
        [⟨"a.pdf", "application/pdf", 7⟩]).events =
      [Event.mkdirIfAbsent "d/1", Event.writeUserFile "d/1/n.pdf" 7,
        Event.insertJob 1, Event.commitTx] ++
        Event.submitTask 1 "d/1/n.pdf" :: []) ∧
    (Event.insertJob 1 ∈
        [Event.mkdirIfAbsent "d/1", Event.writeUserFile "d/1/n.pdf" 7,
          Event.insertJob 1, Event.commitTx] ∧
      1 ∈ committedIds
        [Event.mkdirIfAbsent "d/1", Event.writeUserFile "d/1/n.pdf" 7,
          Event.insertJob 1, Event.commitTx]) :=
  ⟨by decide,
   task_submitted_only_after_committed_insert "d" (fun _ => "n") (fun _ => 0)
     "1" "u" emptyStore [⟨"a.pdf", "application/pdf", 7⟩] _ 1 "d/1/n.pdf" []
     (by decide)⟩

/-- C4: over every operation sequence the program performs on the store
(each job is the target of at most one completion update, since exactly
one conversion task is spawned per inserted row), `file_preview_generated`
is monotonic — true on a trace prefix implies true on every extension —
`file_preview_counter` never decreases, and once `generated` is true the
counter never changes again, so it stays at the final page count. -/
theorem preview_fields_monotonic (ops₁ ops₂ : List Op) (fid : Nat)
    (h : atMostOneCompletion (ops₁ ++ ops₂)) :
    (genAt ops₁ fid = true → genAt (ops₁ ++ ops₂) fid = true) ∧
    countAt ops₁ fid ≤ countAt (ops₁ ++ ops₂) fid ∧
    (genAt ops₁ fid = true →
      countAt (ops₁ ++ ops₂) fid = countAt ops₁ fid) := by
  by_cases hg : genAt ops₁ fid = true
  · obtain ⟨r, hfind, hgen⟩ : ∃ r, findJob (runOps ops₁) fid = some r ∧
        r.file_preview_generated = true := by
      unfold genAt jobState at hg
      cases hf : findJob (runOps ops₁) fid with
      | none => rw [hf] at hg; simp at hg
      | some r0 =>
          rw [hf] at hg
          simp at hg
          exact ⟨r0, rfl, hg⟩
    have hc1 : completions fid ops₁ ≠ 0 := by
      intro h0
      have hfalse := notGenerated_run fid ops₁ emptyStore h0
        (fun r0 hr0 => by rw [findJob_empty] at hr0; cases hr0) r hfind
      rw [hgen] at hfalse
      cases hfalse
    have hc2 : completions fid ops₂ = 0 := by
      have hle := completions_le_one fid (ops₁ ++ ops₂) h
      rw [completions, List.countP_append] at hle
      rw [completions] at hc1 ⊢
      omega
    have hstable : findJob (runOps (ops₁ ++ ops₂)) fid = some r := by
      rw [runOps, runFrom_append]
      exact completed_stable fid ops₂ (runOps ops₁) r hc2 hfind
    refine ⟨fun _ => ?_, ?_, fun _ => ?_⟩
    · unfold genAt jobState
      rw [hstable]
      simpa using hgen
    · unfold countAt jobState
      rw [hstable, hfind]
    · unfold countAt jobState
      rw [hstable, hfind]
  · refine ⟨fun hgt => absurd hgt hg, ?_, fun hgt => absurd hgt hg⟩
    have h0 : countAt ops₁ fid = 0 := by
      unfold countAt jobState
      cases hf : findJob (runOps ops₁) fid with
      | none => simp
      | some r0 =>
          have hgenf : r0.file_preview_generated = false := by
            unfold genAt jobState at hg
            rw [hf] at hg
            simpa using hg
          have hz := pendingZero_run fid ops₁ emptyStore
            (fun rr hrr _ => by rw [findJob_empty] at hrr; cases hrr)
            r0 hf hgenf
          simp [hz]
    rw [h0]
    exact Nat.zero_le _

/-- C4, at a concrete trace: job 1 is inserted and completed with two
pages; the trace then continues with an unrelated insert. -/
theorem preview_fields_monotonic_witness :
    atMostOneCompletion ([Op.insertOp "a.pdf" "1" "u" 0, Op.completeOp 1 2] ++
      [Op.insertOp "b.pdf" "1" "u" 1]) ∧
    ((genAt [Op.insertOp "a.pdf" "1" "u" 0, Op.completeOp 1 2] 1 = true →
        genAt ([Op.insertOp "a.pdf" "1" "u" 0, Op.completeOp 1 2] ++
          [Op.insertOp "b.pdf" "1" "u" 1]) 1 = true) ∧
      countAt [Op.insertOp "a.pdf" "1" "u" 0, Op.completeOp 1 2] 1 ≤
        countAt ([Op.insertOp "a.pdf" "1" "u" 0, Op.completeOp 1 2] ++
          [Op.insertOp "b.pdf" "1" "u" 1]) 1 ∧
      (genAt [Op.insertOp "a.pdf" "1" "u" 0, Op.completeOp 1 2] 1 = true →
        countAt ([Op.insertOp "a.pdf" "1" "u" 0, Op.completeOp 1 2] ++
          [Op.insertOp "b.pdf" "1" "u" 1]) 1 =
          countAt [Op.insertOp "a.pdf" "1" "u" 0, Op.completeOp 1 2] 1)) :=
  ⟨by decide, preview_fields_monotonic _ _ 1 (by decide)⟩

/-- C10: after every operation sequence this program performs from the
fresh table, each row is in exactly one of two states — the initial
`(file_preview_counter = 0, file_preview_generated = false)`, or
`file_preview_generated = true` with the counter carried by the completion
update for that row (the final page count).  The two columns change
together in the single `UPDATE` statement, so a partial count with
`generated = false` is never visible to readers. -/
theorem committed_job_states_binary :
    ∀ (ops : List Op) (r : FileRecord), r ∈ (runOps ops).records →
      (r.file_preview_counter = 0 ∧ r.file_preview_generated = false) ∨
      (r.file_preview_generated = true ∧
        Op.completeOp r.id r.file_preview_counter ∈ ops) := by
  intro ops
  induction ops using List.reverseRecOn with
  | nil =>
      intro r hr
      simp [runOps, runFrom, emptyStore] at hr
  | append_singleton ops op ih =>
      intro r hr
      rw [runOps_concat] at hr
      cases op with
      | insertOp f uid un t =>
          have hr' : r ∈ (runOps ops).records ++
              [{ id := (runOps ops).nextId, file := f,
                 file_preview_counter := 0, file_preview_generated := false,
                 user_id := uid, user_name := un, created_time := t }] := hr
          rcases List.mem_append.1 hr' with h1 | h1
          · rcases ih r h1 with h2 | h2
            · exact Or.inl h2
            · exact Or.inr ⟨h2.1, List.mem_append_left _ h2.2⟩
          · left
            simp at h1
            rw [h1]
            exact ⟨rfl, rfl⟩
      | completeOp fid n =>
          have hr' : r ∈ (runOps ops).records.map (fun x : FileRecord =>
              if x.id = fid then
                { x with file_preview_counter := n,
                         file_preview_generated := true }
              else x) := hr
          rcases List.mem_map.1 hr' with ⟨r0, hr0, hmap⟩
          subst hmap
          by_cases hid : r0.id = fid
          · rw [if_pos hid]
            right
            refine ⟨rfl, ?_⟩
            show Op.completeOp r0.id n ∈ ops ++ [Op.completeOp fid n]
            rw [hid]
            exact List.mem_append_right _ (by simp)
          · rw [if_neg hid]
            rcases ih r0 hr0 with h2 | h2
            · exact Or.inl h2
            · exact Or.inr ⟨h2.1, List.mem_append_left _ h2.2⟩

/-- C10, at a concrete trace: after inserting job 1 and completing it with
three pages, its row is in the completed state labelled by its completion
update. -/
theorem committed_job_states_binary_witness :
    ((⟨1, "a.pdf", 3, true, "1", "u", 0⟩ : FileRecord) ∈
      (runOps [Op.insertOp "a.pdf" "1" "u" 0, Op.completeOp 1 3]).records) ∧
    (((⟨1, "a.pdf", 3, true, "1", "u", 0⟩ : FileRecord).file_preview_counter = 0 ∧
        (⟨1, "a.pdf", 3, true, "1", "u", 0⟩ : FileRecord).file_preview_generated = false) ∨
      ((⟨1, "a.pdf", 3, true, "1", "u", 0⟩ : FileRecord).file_preview_generated = true ∧
        Op.completeOp (⟨1, "a.pdf", 3, true, "1", "u", 0⟩ : FileRecord).id
          (⟨1, "a.pdf", 3, true, "1", "u", 0⟩ : FileRecord).file_preview_counter ∈
          [Op.insertOp "a.pdf" "1" "u" 0, Op.completeOp 1 3])) :=
  ⟨by decide, committed_job_states_binary _ _ (by decide)⟩


